import Mathlib

/-!
Shallow embedding of the inference request pipeline of the hand-written
digit recognition service (src/app.py), together with the model contract
from src/train_model.py.  Machine floating-point values (float32/float64)
are carried as exact rationals; byte values and indices as naturals.
Where rounding itself is at issue — the polarity inversion of
src/app.py:65 — the IEEE-754 binary32 round-to-nearest-even semantics is
modelled explicitly by `fl32`.
-/

namespace DigitApp

/-- Checks whether the first list is an initial segment of the second.
Building block for the Python substring operator `needle in hay`. -/
def leadsWith : List Char → List Char → Bool
  | [], _ => true
  | _ :: _, [] => false
  | a :: as, b :: bs => a == b && leadsWith as bs

/-- Substring containment on character lists: the Python operator
`needle in hay` used at src/app.py:48 and src/app.py:113. -/
def containsSub (needle : List Char) : List Char → Bool
  | [] => needle.isEmpty
  | s@(_ :: rest) => leadsWith needle s || containsSub needle rest

/-- Python `needle in hay` on strings. -/
def pyIn (needle hay : String) : Bool :=
  containsSub needle.toList hay.toList

/-- The data-URL marker `'base64,'` of src/app.py:48. -/
def MARKER : List Char := "base64,".toList

/-- Scanner for Python `image_data.split('base64,')` (src/app.py:49):
`acc` is the current segment, reversed.  Occurrences are consumed left to
right, non-overlapping, exactly as `str.split` does for this separator. -/
def splitMarkerAux : List Char → List Char → List (List Char)
  | acc, 'b' :: 'a' :: 's' :: 'e' :: '6' :: '4' :: ',' :: rest =>
      acc.reverse :: splitMarkerAux [] rest
  | acc, c :: rest => splitMarkerAux (c :: acc) rest
  | acc, [] => [acc.reverse]

/-- Python `image_data.split('base64,')` (src/app.py:49). -/
def splitMarker (s : List Char) : List (List Char) :=
  splitMarkerAux [] s

/-- Everything after the first occurrence of the marker (what a
"strip the data-URL prefix" step would keep if it kept the whole tail);
the identity when the marker is absent. -/
def afterFirstMarker : List Char → List Char
  | 'b' :: 'a' :: 's' :: 'e' :: '6' :: '4' :: ',' :: rest => rest
  | _ :: rest => afterFirstMarker rest
  | [] => []

/-- Lines src/app.py:48-49: when `'base64,'` occurs in the submission, keep
element 1 of the split (the segment between the first and second
occurrence when the marker occurs twice), otherwise keep the whole string. -/
def stripDataUrl (s : List Char) : List Char :=
  if containsSub MARKER s then (splitMarker s).getD 1 [] else s

/-- The standard base64 alphabet, in index order. -/
def B64_CHARS : List Char :=
  "ABCDEFGHIJKLMNOPQRSTUVWXYZabcdefghijklmnopqrstuvwxyz0123456789+/".toList

/-- Index of a character in the base64 alphabet, if any. -/
def b64Index (c : Char) : Option Nat :=
  List.findIdx? (fun d => d == c) B64_CHARS

/-- Whether a character belongs to the base64 alphabet. -/
def isB64Char (c : Char) : Bool :=
  (b64Index c).isSome

/-- The 6-bit value of a base64 alphabet character. -/
def b64Val (c : Char) : Nat :=
  (b64Index c).getD 0

/-- Turns a list of 6-bit values into bytes, three per group of four,
with the usual truncated final group (2 values give 1 byte, 3 give 2). -/
def decodeGroups : List Nat → List Nat
  | v0 :: v1 :: v2 :: v3 :: rest =>
      (v0 * 4 + v1 / 16) :: ((v1 % 16) * 16 + v2 / 4) :: ((v2 % 4) * 64 + v3)
        :: decodeGroups rest
  | [v0, v1, v2] => [v0 * 4 + v1 / 16, (v1 % 16) * 16 + v2 / 4]
  | [v0, v1] => [v0 * 4 + v1 / 16]
  | [_] => []
  | [] => []

/-- Models the Python standard library call `base64.b64decode(image_data)`
(src/app.py:52) with its default `validate=False`: characters outside the
alphabet and `'='` are discarded; a data-character count of 1 mod 4 raises
the dedicated `binascii.Error`; any other kept length not a multiple of 4
raises `Incorrect padding`; otherwise the 6-bit groups become bytes. -/
def b64decode (raw : List Char) : Except String (List Nat) :=
  let kept := raw.filter (fun c => isB64Char c || c == '=')
  let data := kept.filter (fun c => !(c == '='))
  if data.length % 4 == 1 then
    .error ("Invalid base64-encoded string: number of data characters ("
      ++ Nat.repr data.length ++ ") cannot be 1 more than a multiple of 4")
  else if !(kept.length % 4 == 0) then
    .error "Incorrect padding"
  else
    .ok (decodeGroups (data.map b64Val))

/-- A decoded, grayscale-converted, 28x28-resized raster: the result of
`Image.open` / `convert('L')` / `resize((28,28), LANCZOS)`
(src/app.py:53-59).  Mode `'L'` stores unsigned 8-bit samples, so every
pixel is in `Fin 256`.  The decode/convert/resize chain itself lives in
the PIL library, so the pipeline below is parametric in it. -/
abbrev Img28 := Fin 28 → Fin 28 → Fin 256

/-- `np.array(image)` on a 28x28 mode-`'L'` image: the row-major grid of
byte values (src/app.py:62). -/
def grid28 (img : Img28) : List (List Nat) :=
  (List.finRange 28).map (fun i => (List.finRange 28).map (fun j => (img i j).val))

/-- One pixel of `.astype('float32') / 255.0` (src/app.py:62). -/
def normalizePixel (v : Nat) : ℚ :=
  (v : ℚ) / 255

/-- One pixel of the polarity inversion `1.0 - image_array` (src/app.py:65),
in exact rational arithmetic (the idealization used by the tensor
pipeline below; see `invert32` for the rounded float32 semantics of the
same source line). -/
def invertPixel (x : ℚ) : ℚ :=
  1 - x

/-- Round a rational to the nearest integer, ties to even: the IEEE-754
default rounding applied to a scaled significand. -/
def roundNearestEven (m : ℚ) : ℤ :=
  let f := Int.floor m
  if m - f < 1 / 2 then f
  else if 1 / 2 < m - f then f + 1
  else if f % 2 = 0 then f else f + 1

/-- Round a positive rational to 24 binary digits of significand, the
precision of IEEE-754 binary32: the significand `q / 2 ^ e` lies in
`[2^23, 2^24)` for `e = Int.log 2 q - 23`.  Exponent overflow and
subnormals cannot occur in the pixel range `[2^-31, 2]` used here. -/
def rnd24pos (q : ℚ) : ℚ :=
  let e : ℤ := Int.log 2 q - 23
  (roundNearestEven (q / 2 ^ e) : ℚ) * 2 ^ e

/-- Round-to-nearest-even float32 semantics on exact rationals. -/
def fl32 (q : ℚ) : ℚ :=
  if q < 0 then -rnd24pos (-q) else if q = 0 then 0 else rnd24pos q

/-- The float32 computation `1.0 - value` of src/app.py:65 as numpy
executes it on a float32 array: IEEE-754 subtraction is the correctly
rounded exact difference. -/
def invert32 (x : ℚ) : ℚ :=
  fl32 (1 - x)

/-- `image_array.astype('float32') / 255.0` pointwise on the grid. -/
def normalizeGrid (g : List (List Nat)) : List (List ℚ) :=
  g.map (fun row => row.map normalizePixel)

/-- `image_array = 1.0 - image_array` pointwise on the grid. -/
def invertGrid (g : List (List ℚ)) : List (List ℚ) :=
  g.map (fun row => row.map invertPixel)

/-- The (1, 28, 28, 1) tensor produced by the preprocessor. -/
abbrev Tensor4 := List (List (List (List ℚ)))

/-- `np.expand_dims(image_array, axis=(0, -1))` (src/app.py:68): wrap the
whole grid in a singleton batch dimension and every scalar in a singleton
channel dimension. -/
def expandDims (g : List (List ℚ)) : Tensor4 :=
  [g.map (fun row => row.map (fun v => [v]))]

/-- `preprocess_image` (src/app.py:37-70).  `decodeResize` stands for the
PIL chain `Image.open` / `convert('L')` / `resize((28,28), LANCZOS)`;
`none` models the `UnidentifiedImageError` PIL raises on bytes that are
not a recognizable image. -/
def preprocess_image (decodeResize : List Nat → Option Img28)
    (image_data : List Char) : Except String Tensor4 :=
  let data := stripDataUrl image_data
  match b64decode data with
  | .error e => .error e
  | .ok image_bytes =>
    match decodeResize image_bytes with
    | none => .error "cannot identify image file"
    | some image => .ok (expandDims (invertGrid (normalizeGrid (grid28 image))))

/-- A numpy value of arbitrary nesting depth, as flowing between layers. -/
inductive NDArray where
  | scalar : ℚ → NDArray
  | arr : List NDArray → NDArray

mutual

/-- Row-major flattening of an array to its list of scalar entries:
`act_array.flatten()` (src/app.py:132), the identity (on values) when the
array is already one-dimensional. -/
def ndFlat : NDArray → List ℚ
  | .scalar v => [v]
  | .arr xs => ndFlatList xs

/-- Flattening of a list of arrays, concatenated in order. -/
def ndFlatList : List NDArray → List ℚ
  | [] => []
  | a :: as => ndFlat a ++ ndFlatList as

end

/-- `act[0]` (src/app.py:130): dropping the batch dimension. -/
def ndFirst : NDArray → NDArray
  | .arr (x :: _) => x
  | .arr [] => .arr []
  | .scalar v => .scalar v

/-- The preprocessed (1,28,28,1) tensor as an `NDArray`. -/
def ndOfTensor (t : Tensor4) : NDArray :=
  .arr (t.map (fun a =>
    .arr (a.map (fun b =>
      .arr (b.map (fun c =>
        .arr (c.map NDArray.scalar)))))))

/-- One Keras layer: a name and the callable `layer(x, training=False)`. -/
structure Layer where
  name : String
  apply : NDArray → NDArray

/-- The loaded model (src/app.py:25): `model.predict(x, verbose=0)[0]` as
`predictFn`, and the ordered `model.layers` for forward-pass replay. -/
structure Model where
  layers : List Layer
  predictFn : NDArray → List ℚ

/-- The capture condition of src/app.py:113:
`'dense' in layer.name or 'flatten' in layer.name`. -/
def shouldCapture (name : String) : Bool :=
  pyIn "dense" name || pyIn "flatten" name

/-- The replay loop of src/app.py:109-115: thread the tensor through every
layer and record `(layer.name, x)` after each layer whose name satisfies
the capture condition. -/
def replayCaptures : List Layer → NDArray → List (String × NDArray)
  | [], _ => []
  | layer :: rest, x =>
    let y := layer.apply x
    if shouldCapture layer.name then
      (layer.name, y) :: replayCaptures rest y
    else
      replayCaptures rest y

/-- The same replay, recording every layer's output (specification-side
companion of `replayCaptures`). -/
def replayAll : List Layer → NDArray → List (String × NDArray)
  | [], _ => []
  | layer :: rest, x =>
    let y := layer.apply x
    (layer.name, y) :: replayAll rest y

/-- Scan for `np.argmax` (src/app.py:118): `best` is the index of the
greatest value seen so far (first occurrence wins), `bv` its value, `i`
the index of the head of the remaining list. -/
def argmaxAux : List ℚ → Nat → Nat → ℚ → Nat
  | [], _, best, _ => best
  | x :: xs, i, best, bv =>
    if bv < x then argmaxAux xs (i + 1) i x else argmaxAux xs (i + 1) best bv

/-- `int(np.argmax(predictions))` (src/app.py:118): index of the first
occurrence of the maximum, 0 for the empty list. -/
def listArgmax : List ℚ → Nat
  | [] => 0
  | x :: xs => argmaxAux xs 1 0 x

/-- `np.linspace(0, len(act_array)-1, 64, dtype=int)` (src/app.py:137):
64 evenly spaced positions from 0 to `n - 1`, truncated to integers. -/
def sampleIndices (n : Nat) : List Nat :=
  (List.range 64).map (fun k => k * (n - 1) / 63)

/-- Lines src/app.py:135-138: when the flattened activation vector has
more than 64 entries, keep the entries at the 64 evenly spaced sample
indices; otherwise keep the vector as is. -/
def limitActivations (v : List ℚ) : List ℚ :=
  if 64 < v.length then (sampleIndices v.length).map (fun i => v.getD i 0) else v

/-- The JSON value returned by the `/predict` route: either the success
body of src/app.py:145-150 or an `{'error': ...}, status` pair. -/
inductive PredictResponse where
  | success (digit : Nat) (confidence : ℚ)
      (probabilities : List (String × ℚ))
      (network_activations : List (String × List ℚ))
  | failure (status : Nat) (error : String)
deriving DecidableEq

/-- The HTTP status of a response: `none` for the 200 success path. -/
def statusOf : PredictResponse → Option Nat
  | .success _ _ _ _ => none
  | .failure s _ => some s

/-- The `/predict` handler (src/app.py:77-154).  `model` is the global
handle (possibly unset), `decodeResize` the PIL image decoding chain, and
`image?` the `data.get('image')` field of the request body.  An
`Except.error` from preprocessing models the exception the `except` arm
at src/app.py:152-154 converts into a 500 response. -/
def predict (model : Option Model) (decodeResize : List Nat → Option Img28)
    (image? : Option String) : PredictResponse :=
  match model with
  | none => .failure 500 "Model not loaded. Please train the model first."
  | some m =>
    match image? with
    | none => .failure 400 "No image data provided"
    | some image_data =>
      if image_data = "" then .failure 400 "No image data provided"
      else
        match preprocess_image decodeResize image_data.toList with
        | .error e => .failure 500 e
        | .ok t =>
          let x := ndOfTensor t
          let predictions := m.predictFn x
          let captured := replayCaptures m.layers x
          let predicted_digit := listArgmax predictions
          let confidence := predictions.getD predicted_digit 0
          let all_probabilities :=
            (List.range 10).map (fun i => (Nat.repr i, predictions.getD i 0))
          let network_activations :=
            captured.map (fun p => (p.1, limitActivations (ndFlat (ndFirst p.2))))
          .success predicted_digit confidence all_probabilities network_activations

/-- The all-black 28x28 raster, used as a concrete decoded image. -/
def imgZero : Img28 := fun _ _ => (0 : Fin 256)

/-- A decode chain that accepts any bytes and yields the black raster. -/
def decZero : List Nat → Option Img28 := fun _ => some imgZero

/-- A decode chain on which PIL fails to recognize the bytes. -/
def decNone : List Nat → Option Img28 := fun _ => none

/-- A minimal loaded model with no layers and an empty score vector. -/
def mZero : Model := ⟨[], fun _ => []⟩

/-- A minimal loaded model whose score vector is the 10-class one-hot at
class 2, matching the `Dense(10, softmax)` head of src/train_model.py:31. -/
def mTen : Model := ⟨[], fun _ => [0, 0, 1, 0, 0, 0, 0, 0, 0, 0]⟩

/-- The tensor the preprocessor produces from the black raster. -/
def tZero : Tensor4 := expandDims (invertGrid (normalizeGrid (grid28 imgZero)))

/-- The probabilities association list the handler builds from `mTen`. -/
def probsW : List (String × ℚ) :=
  (List.range 10).map (fun i =>
    (Nat.repr i, ([0, 0, 1, 0, 0, 0, 0, 0, 0, 0] : List ℚ).getD i 0))

/-- A data-URL submission whose base64 body itself contains `'base64,'`. -/
def PAYLOAD : List Char := "data:image/png;base64,AAAAbase64,AA".toList

/-! ### Helper lemmas -/

/-- A three-part string append with a non-empty first part is non-empty. -/
theorem append3_ne_empty (a b c : String) (ha : 0 < a.length) :
    ¬ (a ++ b ++ c) = "" := by
  intro h
  have hl := congrArg String.length h
  rw [String.length_append, String.length_append] at hl
  have h0 : String.length "" = 0 := rfl
  omega

/-- Every error message `b64decode` can produce is non-empty. -/
theorem b64decode_error_nonempty (l : List Char) (e : String)
    (h : b64decode l = .error e) : ¬ e = "" := by
  simp only [b64decode] at h
  split at h
  · injection h with he
    subst he
    exact append3_ne_empty _ _ _ (by decide)
  · split at h
    · injection h with he
      subst he
      decide
    · exact Except.noConfusion h

/-- When preprocessing fails, the handler answers with status 500 and the
failure's message. -/
theorem predict_preprocess_error (m : Model) (dec : List Nat → Option Img28)
    (s e : String) (hs : ¬ s = "")
    (hpre : preprocess_image dec s.toList = .error e) :
    predict (some m) dec (some s) = .failure 500 e := by
  simp only [predict, hpre, if_neg hs]

/-- The running maximum index of `argmaxAux` stays below the total extent. -/
theorem argmaxAux_lt (l : List ℚ) :
    ∀ (i best : Nat) (bv : ℚ), best < i → argmaxAux l i best bv < i + l.length := by
  induction l with
  | nil => intro i best bv hb; simpa [argmaxAux] using hb
  | cons x xs ih =>
    intro i best bv hb
    simp only [argmaxAux]
    by_cases hx : bv < x
    · rw [if_pos hx]
      have := ih (i + 1) i x (Nat.lt_succ_self i)
      simpa [Nat.add_comm, Nat.add_left_comm] using this
    · rw [if_neg hx]
      have := ih (i + 1) best bv (Nat.lt_succ_of_lt hb)
      simpa [Nat.add_comm, Nat.add_left_comm] using this

/-- `np.argmax` returns an index inside the vector. -/
theorem listArgmax_lt (l : List ℚ) (h : 0 < l.length) : listArgmax l < l.length := by
  cases l with
  | nil => simp at h
  | cons x xs =>
    have := argmaxAux_lt xs 1 0 x (Nat.zero_lt_one)
    simpa [listArgmax, Nat.add_comm] using this

/-- Reading a 10-element list back through `getD` over `range 10`
reconstructs the list. -/
theorem getD_range_map (l : List ℚ) (h : l.length = 10) :
    (List.range 10).map (fun i => l.getD i 0) = l := by
  apply List.ext_getElem
  · simp [h]
  · intro i h1 h2
    simp only [List.getElem_map, List.getElem_range]
    rw [List.getD_eq_getElem?_getD, List.getElem?_eq_getElem h2]
    rfl

/-- Looking up the stringified key `d` in the association list built over
`range 10` yields the value at `d`. -/
theorem lookup_range10 (v : Nat → ℚ) (d : Nat) (hd : d < 10) :
    List.lookup (Nat.repr d)
      ((List.range 10).map (fun i => (Nat.repr i, v i))) = some (v d) := by
  interval_cases d <;> rfl

/-- Characterization of `Int.log 2` by the enclosing binade. -/
theorem int_log_eq_of (q : ℚ) (E : ℤ) (hq : 0 < q)
    (h1 : (2 : ℚ) ^ E ≤ q) (h2 : q < (2 : ℚ) ^ (E + 1)) : Int.log 2 q = E := by
  have ha : ((2 : ℕ) : ℚ) ^ Int.log 2 q ≤ q := Int.zpow_log_le_self (by norm_num) hq
  have hb : q < ((2 : ℕ) : ℚ) ^ (Int.log 2 q + 1) :=
    Int.lt_zpow_succ_log_self (by norm_num) q
  push_cast at ha hb
  have h3 : (2 : ℚ) ^ Int.log 2 q < (2 : ℚ) ^ (E + 1) := lt_of_le_of_lt ha h2
  have h4 : (2 : ℚ) ^ E < (2 : ℚ) ^ (Int.log 2 q + 1) := lt_of_le_of_lt h1 hb
  rw [zpow_lt_zpow_iff_right₀ (by norm_num : (1 : ℚ) < 2)] at h3 h4
  omega

/-- Rounding to nearest fixes integers. -/
theorem roundNearestEven_intCast (n : ℤ) : roundNearestEven (n : ℚ) = n := by
  unfold roundNearestEven
  rw [Int.floor_intCast]
  norm_num

/-- Rounding to nearest rounds up past the midpoint. -/
theorem roundNearestEven_high (m : ℚ) (f : ℤ)
    (h1 : (f : ℚ) ≤ m) (h2 : m < f + 1) (h3 : 1 / 2 < m - f) :
    roundNearestEven m = f + 1 := by
  unfold roundNearestEven
  have hf : ⌊m⌋ = f := Int.floor_eq_iff.mpr ⟨h1, h2⟩
  rw [hf, if_neg (by linarith), if_pos h3]

/-- Evaluation of `fl32` from the binade and the rounded significand. -/
theorem fl32_eval (q : ℚ) (E : ℤ) (n : ℤ) (hq : 0 < q)
    (h1 : (2 : ℚ) ^ E ≤ q) (h2 : q < (2 : ℚ) ^ (E + 1))
    (hr : roundNearestEven (q / 2 ^ (E - 23)) = n) :
    fl32 q = (n : ℚ) * 2 ^ (E - 23) := by
  unfold fl32 rnd24pos
  rw [if_neg (not_lt.mpr hq.le), if_neg hq.ne']
  rw [int_log_eq_of q E hq h1 h2]
  show (roundNearestEven (q / 2 ^ (E - 23)) : ℚ) * 2 ^ (E - 23)
    = (n : ℚ) * 2 ^ (E - 23)
  rw [hr]

/-- Zero is a float32 fixed point. -/
theorem fl32_zero : fl32 0 = 0 := by
  simp [fl32]

/-- Every dyadic `k / 2^24` with `0 < k ≤ 2^24` is exactly representable
in float32, hence fixed by rounding. -/
theorem fl32_fix_dyadic (k : ℕ) (hk1 : 0 < k) (hk2 : k ≤ 2 ^ 24) :
    fl32 ((k : ℚ) / 2 ^ 24) = (k : ℚ) / 2 ^ 24 := by
  rcases Nat.eq_or_lt_of_le hk2 with hk | hk
  · have hq : ((k : ℚ)) / 2 ^ 24 = 1 := by
      rw [hk]; push_cast; norm_num
    rw [hq]
    have hr : roundNearestEven ((1 : ℚ) / 2 ^ ((0 : ℤ) - 23)) = ((2 ^ 23 : ℤ)) := by
      have harg : ((1 : ℚ) / 2 ^ ((0 : ℤ) - 23)) = (((2 ^ 23 : ℤ)) : ℚ) := by norm_num
      rw [harg, roundNearestEven_intCast]
    have h := fl32_eval 1 0 (2 ^ 23) (by norm_num) (by norm_num) (by norm_num) hr
    rw [h]
    norm_num
  · have hj1 : 2 ^ Nat.log 2 k ≤ k := Nat.pow_log_le_self 2 hk1.ne'
    have hj2 : k < 2 ^ (Nat.log 2 k + 1) := Nat.lt_pow_succ_log_self (by norm_num) k
    set j := Nat.log 2 k with hjdef
    have hj24 : j ≤ 23 := by
      by_contra hcon
      have : 2 ^ 24 ≤ 2 ^ j := Nat.pow_le_pow_right (by norm_num) (by omega)
      omega
    have key : ((k * 2 ^ (23 - j) : ℕ) : ℚ) * 2 ^ ((j : ℤ) - 24 - 23)
        = (k : ℚ) / 2 ^ 24 := by
      push_cast
      rw [mul_assoc, ← zpow_natCast (2 : ℚ) (23 - j), ← zpow_add₀ (two_ne_zero)]
      have he : ((23 - j : ℕ) : ℤ) + ((j : ℤ) - 24 - 23) = -24 := by omega
      rw [he]
      norm_num [div_eq_mul_inv]
    have h1 : (2 : ℚ) ^ ((j : ℤ) - 24) ≤ (k : ℚ) / 2 ^ 24 := by
      have hc1 : (2 : ℚ) ^ ((j : ℤ) - 24) = 2 ^ j / 2 ^ 24 := by
        rw [zpow_sub₀ (two_ne_zero), zpow_natCast]
        norm_num
      rw [hc1]
      gcongr
      exact_mod_cast hj1
    have h2 : (k : ℚ) / 2 ^ 24 < (2 : ℚ) ^ ((j : ℤ) - 24 + 1) := by
      have hc2 : (2 : ℚ) ^ ((j : ℤ) - 24 + 1) = 2 ^ (j + 1) / 2 ^ 24 := by
        have he2 : (j : ℤ) - 24 + 1 = ((j + 1 : ℕ) : ℤ) - 24 := by push_cast; ring
        rw [he2, zpow_sub₀ (two_ne_zero), zpow_natCast]
        norm_num
      rw [hc2]
      gcongr
      exact_mod_cast hj2
    have harg : ((k : ℚ) / 2 ^ 24) / 2 ^ ((j : ℤ) - 24 - 23)
        = (((k * 2 ^ (23 - j) : ℕ) : ℤ) : ℚ) := by
      rw [← key]
      push_cast
      exact mul_div_cancel_right₀ _ (by positivity)
    have hr : roundNearestEven (((k : ℚ) / 2 ^ 24) / 2 ^ ((j : ℤ) - 24 - 23))
        = ((k * 2 ^ (23 - j) : ℕ) : ℤ) := by
      rw [harg, roundNearestEven_intCast]
    have h := fl32_eval ((k : ℚ) / 2 ^ 24) ((j : ℤ) - 24) ((k * 2 ^ (23 - j) : ℕ) : ℤ)
      (by positivity) h1 h2 hr
    rw [h, ← key]
    push_cast
    ring

/-- The float32 quotient `1 / 255`, the normalized pixel value of byte 1
produced at src/app.py:62 (IEEE division rounds the exact quotient). -/
theorem fl32_one_div_255 : fl32 (1 / 255) = 8421505 / 2 ^ 31 := by
  have h := fl32_eval (1 / 255) (-8) 8421505 (by norm_num) (by norm_num) (by norm_num)
    (roundNearestEven_high _ 8421504 (by norm_num) (by norm_num) (by norm_num))
  rw [h]
  norm_num

/-- First float32 inversion of `float32(1/255)`: the exact difference is
not representable and rounds up by half an ulp. -/
theorem fl32_first_inversion :
    fl32 (1 - 8421505 / 2 ^ 31) = 16711423 / 2 ^ 24 := by
  have h := fl32_eval (1 - 8421505 / 2 ^ 31) (-1) 16711423 (by norm_num) (by norm_num)
    (by norm_num)
    (roundNearestEven_high _ 16711422 (by norm_num) (by norm_num) (by norm_num))
  rw [h]
  norm_num

/-- Second float32 inversion: exact by Sterbenz, but starting from the
already-rounded value. -/
theorem fl32_second_inversion :
    fl32 (1 - 16711423 / 2 ^ 24) = 65793 / 2 ^ 24 := by
  have harg : (1 : ℚ) - 16711423 / 2 ^ 24 = ((65793 : ℕ) : ℚ) / 2 ^ 24 := by
    push_cast
    norm_num
  rw [harg, fl32_fix_dyadic 65793 (by norm_num) (by norm_num)]
  push_cast
  norm_num

/-! ### Claims -/

/-- C1 (counterexample): a request whose image field is malformed base64
(`"AAAAA"`) is answered with status 500, not with the bad-request status
400 the claim requires. -/
theorem c1_decode_failure_counterexample :
    statusOf (predict (some mZero) decNone (some "AAAAA")) = some 500
    ∧ ¬ statusOf (predict (some mZero) decNone (some "AAAAA")) = some 400 := by
  exact ⟨rfl, by decide⟩

/-- C1 (amended): decode failures raised inside the Image Preprocessor are
caught by the handler's generic exception arm and propagated as 500
internal-server errors carrying the failure message, not as 400
bad-request errors. -/
theorem c1_decode_failure_is_500 (m : Model) (dec : List Nat → Option Img28)
    (s e : String) (hs : ¬ s = "")
    (hpre : preprocess_image dec s.toList = .error e) :
    predict (some m) dec (some s) = .failure 500 e
    ∧ ¬ predict (some m) dec (some s) = .failure 400 e := by
  have h5 := predict_preprocess_error m dec s e hs hpre
  refine ⟨h5, ?_⟩
  rw [h5]
  intro hcon
  have hst := congrArg statusOf hcon
  simp only [statusOf] at hst
  exact absurd hst (by decide)

/-- C1 (witness for the amended claim). -/
theorem c1_decode_failure_is_500_witness :
    predict (some mZero) decNone (some "AAAAAB") = .failure 500 "Incorrect padding"
    ∧ ¬ predict (some mZero) decNone (some "AAAAAB")
        = .failure 400 "Incorrect padding" :=
  c1_decode_failure_is_500 mZero decNone "AAAAAB" "Incorrect padding"
    (by decide) rfl

/-- One preprocessed pixel lies in `[0, 1]`. -/
theorem pixel_bounds (v : Nat) (hv : v ≤ 255) :
    0 ≤ invertPixel (normalizePixel v) ∧ invertPixel (normalizePixel v) ≤ 1 := by
  unfold invertPixel normalizePixel
  have hv' : (v : ℚ) ≤ 255 := by exact_mod_cast hv
  have h255 : (0 : ℚ) < 255 := by norm_num
  constructor
  · have : (v : ℚ) / 255 ≤ 1 := by
      rw [div_le_one h255]; exact hv'
    linarith
  · have : 0 ≤ (v : ℚ) / 255 := by positivity
    linarith

/-- C2: whenever `preprocess_image` succeeds, its output tensor has exactly
shape (1, 28, 28, 1) and every entry lies in the closed interval [0, 1]
(float32 values are modelled as exact rationals). -/
theorem c2_preprocess_shape_range (dec : List Nat → Option Img28)
    (s : List Char) (t : Tensor4) (h : preprocess_image dec s = .ok t) :
    t.length = 1
    ∧ ∀ plane ∈ t, plane.length = 28
      ∧ ∀ row ∈ plane, row.length = 28
        ∧ ∀ cell ∈ row, cell.length = 1
          ∧ ∀ x ∈ cell, 0 ≤ x ∧ x ≤ 1 := by
  simp only [preprocess_image] at h
  split at h
  · exact Except.noConfusion h
  · split at h
    · exact Except.noConfusion h
    · rename_i image_bytes _ image heq
      injection h with h
      subst h
      refine ⟨rfl, ?_⟩
      intro plane hp
      simp only [expandDims, List.mem_singleton] at hp
      subst hp
      constructor
      · simp [invertGrid, normalizeGrid, grid28]
      · intro row hr
        simp only [invertGrid, normalizeGrid, grid28, List.map_map,
          List.mem_map, List.mem_finRange, true_and] at hr
        obtain ⟨i, hrow⟩ := hr
        subst hrow
        constructor
        · simp
        · intro cell hc
          simp only [List.map_map, List.mem_map, List.mem_finRange,
            Function.comp_apply, true_and] at hc
          obtain ⟨j, hcell⟩ := hc
          subst hcell
          refine ⟨rfl, ?_⟩
          intro x hx
          simp only [List.mem_singleton] at hx
          subst hx
          exact pixel_bounds (image i j).val (Nat.le_of_lt_succ (image i j).isLt)

/-- C2 (witness): the tensor preprocessed from the black raster. -/
theorem c2_preprocess_shape_range_witness :
    tZero.length = 1
    ∧ ∀ plane ∈ tZero, plane.length = 28
      ∧ ∀ row ∈ plane, row.length = 28
        ∧ ∀ cell ∈ row, cell.length = 1
          ∧ ∀ x ∈ cell, 0 ≤ x ∧ x ≤ 1 :=
  c2_preprocess_shape_range decZero "AAAA".toList tZero rfl

/-- C3: every success response has its probabilities keyed by the
stringified class indices "0" through "9" in order, its confidence stored
under the stringified digit key, and its digit equal to the arg-max index
of the prediction vector the probabilities carry. -/
theorem c3_response_consistency (m : Model) (dec : List Nat → Option Img28)
    (req : Option String) (d : Nat) (c : ℚ)
    (probs : List (String × ℚ)) (acts : List (String × List ℚ))
    (hlen : ∀ x, (m.predictFn x).length = 10)
    (hok : predict (some m) dec req = .success d c probs acts) :
    probs.map Prod.fst = ["0", "1", "2", "3", "4", "5", "6", "7", "8", "9"]
    ∧ List.lookup (Nat.repr d) probs = some c
    ∧ d = listArgmax (probs.map Prod.snd) := by
  cases req with
  | none => exact PredictResponse.noConfusion hok
  | some s =>
    simp only [predict] at hok
    by_cases hs : s = ""
    · rw [if_pos hs] at hok
      exact PredictResponse.noConfusion hok
    · rw [if_neg hs] at hok
      cases hpre : preprocess_image dec s.toList with
      | error e =>
        rw [hpre] at hok
        exact PredictResponse.noConfusion hok
      | ok t =>
        rw [hpre] at hok
        simp only [PredictResponse.success.injEq] at hok
        obtain ⟨hd, hc, hprobs, -⟩ := hok
        have h10 : (m.predictFn (ndOfTensor t)).length = 10 := hlen _
        have hdlt : d < 10 := by
          rw [← hd]
          have := listArgmax_lt (m.predictFn (ndOfTensor t)) (by omega)
          omega
        refine ⟨?_, ?_, ?_⟩
        · rw [← hprobs, List.map_map]
          rfl
        · rw [← hprobs, lookup_range10 (fun i => _) d hdlt, ← hc, hd]
        · rw [← hprobs]
          have hsnd : ((List.range 10).map
              (fun i => (Nat.repr i, (m.predictFn (ndOfTensor t)).getD i 0))).map
                Prod.snd
              = m.predictFn (ndOfTensor t) := by
            rw [List.map_map]
            exact getD_range_map _ h10
          rw [hsnd, ← hd]

/-- C3 (witness): the one-hot model at a concrete request. -/
theorem c3_response_consistency_witness :
    probsW.map Prod.fst = ["0", "1", "2", "3", "4", "5", "6", "7", "8", "9"]
    ∧ List.lookup (Nat.repr 2) probsW = some 1
    ∧ 2 = listArgmax (probsW.map Prod.snd) :=
  c3_response_consistency mTen decZero (some "AAAA") 2 1 probsW []
    (fun _ => rfl) rfl

/-- The k-th sample index, for k below 64. -/
theorem sampleIndices_getD (n k : Nat) (hk : k < 64) :
    (sampleIndices n).getD k 0 = k * (n - 1) / 63 := by
  unfold sampleIndices
  rw [List.getD_eq_getElem?_getD]
  rw [List.getElem?_eq_getElem (by simpa using hk)]
  simp

/-- C4: a flattened activation vector longer than 64 is subsampled to
exactly 64 values taken at the evenly spaced truncated indices
`k * (len - 1) / 63`, which start at 0, end at `len - 1`, and stay inside
the vector; a vector of length at most 64 is passed through unchanged, so
the sample count equals the true length. -/
theorem c4_activation_sampling (v : List ℚ) :
    (64 < v.length →
      (limitActivations v).length = 64
      ∧ limitActivations v = (sampleIndices v.length).map (fun i => v.getD i 0)
      ∧ (∀ k, k < 64 →
          (sampleIndices v.length).getD k 0 = k * (v.length - 1) / 63)
      ∧ (sampleIndices v.length).getD 0 0 = 0
      ∧ (sampleIndices v.length).getD 63 0 = v.length - 1
      ∧ (∀ i ∈ sampleIndices v.length, i < v.length))
    ∧ (v.length ≤ 64 → limitActivations v = v) := by
  constructor
  · intro hlong
    have heq : limitActivations v
        = (sampleIndices v.length).map (fun i => v.getD i 0) := by
      unfold limitActivations
      rw [if_pos hlong]
    refine ⟨?_, heq, fun k hk => sampleIndices_getD v.length k hk, ?_, ?_, ?_⟩
    · rw [heq]; simp [sampleIndices]
    · rw [sampleIndices_getD v.length 0 (by omega)]
      simp
    · rw [sampleIndices_getD v.length 63 (by omega)]
      exact Nat.mul_div_cancel_left (v.length - 1) (by omega)
    · intro i hi
      simp only [sampleIndices, List.mem_map, List.mem_range] at hi
      obtain ⟨k, hk, hik⟩ := hi
      subst hik
      have h1 : k * (v.length - 1) ≤ 63 * (v.length - 1) :=
        Nat.mul_le_mul_right _ (by omega)
      have h2 : k * (v.length - 1) / 63 ≤ 63 * (v.length - 1) / 63 :=
        Nat.div_le_div_right h1
      rw [Nat.mul_div_cancel_left (v.length - 1) (by omega)] at h2
      omega
  · intro hshort
    unfold limitActivations
    rw [if_neg (by omega)]

/-- C4 (witness): a 65-long vector is cut to 64 samples; a 3-long vector
is passed through unchanged. -/
theorem c4_activation_sampling_witness :
    (limitActivations (List.replicate 65 (0 : ℚ))).length = 64
    ∧ limitActivations [(1 : ℚ), 2, 3] = [(1 : ℚ), 2, 3] :=
  ⟨((c4_activation_sampling (List.replicate 65 0)).1 (by decide)).1,
   (c4_activation_sampling [(1 : ℚ), 2, 3]).2 (by decide)⟩

/-- C5: the replay loop captures exactly the outputs of the layers whose
name contains the substring "dense" or "flatten", in layer order: the
captured trace is the full layer-by-layer trace filtered by the name
condition, and the captured names are the matching layer names in order. -/
theorem c5_capture_filter (ls : List Layer) (x : NDArray) :
    replayCaptures ls x = (replayAll ls x).filter (fun p => shouldCapture p.1)
    ∧ (replayCaptures ls x).map Prod.fst
      = (ls.map Layer.name).filter shouldCapture := by
  induction ls generalizing x with
  | nil => exact ⟨rfl, rfl⟩
  | cons l rest ih =>
    obtain ⟨ih1, ih2⟩ := ih (l.apply x)
    constructor
    · simp only [replayCaptures, replayAll, List.filter_cons]
      by_cases hc : shouldCapture l.name
      · simp [hc, ih1]
      · simp [hc, ih1]
    · simp only [replayCaptures, List.map_cons, List.filter_cons]
      by_cases hc : shouldCapture l.name
      · simp [hc, ih2]
      · simp [hc, ih2]

/-- C6: with the Model Handle unset the handler rejects with the 500
"model not loaded" error before looking at the request body, so a request
that is also missing its image field gets the 500 error; only when the
model is present does a missing image field get the 400 error. -/
theorem c6_check_order :
    (∀ dec : List Nat → Option Img28,
      predict none dec none
        = .failure 500 "Model not loaded. Please train the model first.")
    ∧ (∀ (m : Model) (dec : List Nat → Option Img28),
      predict (some m) dec none = .failure 400 "No image data provided") :=
  ⟨fun _ => rfl, fun _ _ => rfl⟩

/-- C7: a submission whose payload is malformed base64 makes the handler
answer 500 with the (always non-empty) message of the decode failure; the
exception is caught, not propagated as a crash. -/
theorem c7_malformed_base64_500 (m : Model) (dec : List Nat → Option Img28)
    (s e : String) (hs : ¬ s = "")
    (hb : b64decode (stripDataUrl s.toList) = .error e) :
    predict (some m) dec (some s) = .failure 500 e ∧ ¬ e = "" := by
  have hpre : preprocess_image dec s.toList = .error e := by
    simp only [preprocess_image]
    rw [hb]
  exact ⟨predict_preprocess_error m dec s e hs hpre,
    b64decode_error_nonempty _ e hb⟩

/-- C7 (witness): the malformed payload `"AAAAA"`. -/
theorem c7_malformed_base64_500_witness :
    predict (some mTen) decZero (some "AAAAA")
      = .failure 500 "Invalid base64-encoded string: number of data characters (5) cannot be 1 more than a multiple of 4"
    ∧ ¬ "Invalid base64-encoded string: number of data characters (5) cannot be 1 more than a multiple of 4" = "" :=
  c7_malformed_base64_500 mTen decZero "AAAAA" _ (by decide) rfl

/-- C8 (counterexample): in the float32 arithmetic of src/app.py:65 the
double inversion is not the identity on all of [0, 1].  At
x = float32(1/255) = 8421505/2^31 — the very pixel value the preprocessor
produces for byte 1 — the inner subtraction `1.0 - x` rounds, and the
double inversion lands one ulp low, at 8421504/2^31. -/
theorem c8_float32_counterexample :
    ((0 : ℚ) ≤ 8421505 / 2 ^ 31 ∧ (8421505 / 2 ^ 31 : ℚ) ≤ 1)
    ∧ fl32 (1 / 255) = 8421505 / 2 ^ 31
    ∧ invert32 (invert32 (8421505 / 2 ^ 31)) = 8421504 / 2 ^ 31
    ∧ ¬ invert32 (invert32 (8421505 / 2 ^ 31)) = (8421505 / 2 ^ 31 : ℚ) := by
  have hchain : invert32 (invert32 ((8421505 : ℚ) / 2 ^ 31)) = 8421504 / 2 ^ 31 := by
    unfold invert32
    rw [fl32_first_inversion, fl32_second_inversion]
    norm_num
  refine ⟨⟨by norm_num, by norm_num⟩, fl32_one_div_255, hchain, ?_⟩
  rw [hchain]
  norm_num

/-- C8 (amended): the polarity inversion of src/app.py:65 is an exact
involution on the upper half of the pixel range: for every
float32-representable x in [1/2, 1] (x = m/2^24 with 2^23 ≤ m ≤ 2^24),
the first float32 inversion `1.0 - x` is computed exactly, and applying
it twice returns x exactly. -/
theorem c8_invert32_involution_upper (m : ℕ)
    (h1 : 2 ^ 23 ≤ m) (h2 : m ≤ 2 ^ 24) :
    invert32 ((m : ℚ) / 2 ^ 24) = 1 - (m : ℚ) / 2 ^ 24
    ∧ invert32 (invert32 ((m : ℚ) / 2 ^ 24)) = (m : ℚ) / 2 ^ 24 := by
  have hsub : (1 : ℚ) - (m : ℚ) / 2 ^ 24 = ((2 ^ 24 - m : ℕ) : ℚ) / 2 ^ 24 := by
    rw [Nat.cast_sub h2]
    push_cast
    ring
  rcases Nat.eq_or_lt_of_le h2 with he | hlt
  · have hx : ((m : ℚ)) / 2 ^ 24 = 1 := by
      rw [he]; push_cast; norm_num
    have hone : fl32 1 = 1 := by
      have h1q : (1 : ℚ) = ((2 ^ 24 : ℕ) : ℚ) / 2 ^ 24 := by push_cast; norm_num
      rw [h1q, fl32_fix_dyadic (2 ^ 24) (by norm_num) (le_refl _)]
    have hi1 : invert32 1 = 0 := by
      unfold invert32
      rw [sub_self, fl32_zero]
    constructor
    · rw [hx, hi1]; norm_num
    · rw [hx, hi1]
      unfold invert32
      rw [sub_zero, hone]
  · have hk1 : 0 < 2 ^ 24 - m := by omega
    have hk2 : 2 ^ 24 - m ≤ 2 ^ 24 := by omega
    have hfix1 : invert32 ((m : ℚ) / 2 ^ 24) = ((2 ^ 24 - m : ℕ) : ℚ) / 2 ^ 24 := by
      unfold invert32
      rw [hsub, fl32_fix_dyadic _ hk1 hk2]
    constructor
    · rw [hfix1]
      exact hsub.symm
    · rw [hfix1]
      unfold invert32
      have hsub2 : (1 : ℚ) - ((2 ^ 24 - m : ℕ) : ℚ) / 2 ^ 24
          = ((m : ℕ) : ℚ) / 2 ^ 24 := by
        rw [Nat.cast_sub h2]
        push_cast
        ring
      rw [hsub2, fl32_fix_dyadic m (by omega) h2]

/-- C8 (witness for the amended claim): the involution at x = 1/2. -/
theorem c8_invert32_involution_upper_witness :
    invert32 (((2 ^ 23 : ℕ) : ℚ) / 2 ^ 24) = 1 - ((2 ^ 23 : ℕ) : ℚ) / 2 ^ 24
    ∧ invert32 (invert32 (((2 ^ 23 : ℕ) : ℚ) / 2 ^ 24))
      = ((2 ^ 23 : ℕ) : ℚ) / 2 ^ 24 :=
  c8_invert32_involution_upper (2 ^ 23) (by decide) (by decide)

/-- C9: splitting on `'base64,'` keeps only the segment strictly between
the first and second occurrence, not everything after the first
occurrence: on a payload whose base64 body itself contains `'base64,'`,
the preprocessor keeps `"AAAA"` instead of the full tail
`"AAAAbase64,AA"`, and the decoded bytes are a strict, non-empty-remainder
prefix of the bytes the full tail decodes to. -/
theorem c9_marker_truncation :
    stripDataUrl PAYLOAD = "AAAA".toList
    ∧ splitMarker PAYLOAD
      = ["data:image/png;".toList, "AAAA".toList, "AA".toList]
    ∧ afterFirstMarker PAYLOAD = "AAAAbase64,AA".toList
    ∧ ¬ stripDataUrl PAYLOAD = afterFirstMarker PAYLOAD
    ∧ b64decode (stripDataUrl PAYLOAD) = .ok [0, 0, 0]
    ∧ b64decode (afterFirstMarker PAYLOAD)
      = .ok ([0, 0, 0] ++ [109, 171, 30, 235, 128, 0]) := by
  refine ⟨rfl, rfl, rfl, by decide, rfl, rfl⟩

/-- C10: a present-but-empty image field is rejected exactly like a
missing one, with the 400 "No image data provided" error, because the
handler tests the field's truthiness. -/
theorem c10_empty_image_field (m : Model) (dec : List Nat → Option Img28) :
    predict (some m) dec (some "") = .failure 400 "No image data provided"
    ∧ predict (some m) dec none = .failure 400 "No image data provided"
    ∧ predict (some m) dec (some "") = predict (some m) dec none :=
  ⟨rfl, rfl, rfl⟩

end DigitApp
